import Mathlib

/-!
Shallow embedding of the dotpal-ctf repository.

The pallet `src/pallets/ctf/src/lib.rs` is embedded as pure functions over an
explicit `PalletState`.  Machine integers (`u32`, `u64`, `U256`) are modelled
as `Nat` with explicit clamping or `% 2 ^ w` reductions exactly where the Rust
code saturates or wraps.  Byte strings are `List Nat` (each entry one byte).
The blake2-256 hash and the SCALE encoding of the opaque `AccountId` are
external primitives and enter every definition as parameters, so the theorems
hold for every choice of hash and identity encoding.  Fallible dispatchables
return `Except Err`; a returned error means the extrinsic rolled back, so the
caller keeps the old state.  The runtime nonce guard
`src/runtime/src/check_nonce.rs` is embedded in namespace `CheckNonce`.
-/

namespace Ctf

/-- Player score state, from `enum ScoreState` in the pallet: either
`Enabled(points: u64)` or the terminal `Disabled`. -/
inductive ScoreState where
  | Enabled (points : Nat)
  | Disabled
deriving DecidableEq

/-- Pallet errors, from `enum Error<T>` in the pallet. -/
inductive Err where
  | BadProof
  | InvalidDifficulty
  | AlreadyWithdrawn
  | ScoreDisabled
  | InvalidLotteryDifficulty
  | LotteryEntryFailed
deriving DecidableEq

/-- Largest `u64` value. -/
def U64_MAX : Nat := 2 ^ 64 - 1

/-- Largest `u32` value. -/
def U32_MAX : Nat := 2 ^ 32 - 1

/-- Rust `u64::saturating_add` on values already below `2 ^ 64`. -/
def satAdd64 (a b : Nat) : Nat := min (a + b) U64_MAX

/-- Rust `u32::saturating_add` on values already below `2 ^ 32`. -/
def satAdd32 (a b : Nat) : Nat := min (a + b) U32_MAX

/-- SCALE encoding of a `u32`: four bytes, little endian.  Used for the
`nonce.encode()` and `difficulty.encode()` calls in `verify_pow`. -/
def encodeU32 (n : Nat) : List Nat :=
  [n % 256, n / 256 % 256, n / 65536 % 256, n / 16777216 % 256]

/-- Value of a byte string read as a little-endian unsigned integer; this is
`U256::from_little_endian` applied to the 32-byte blake2-256 digest. -/
def bytesToNatLE : List Nat → Nat
  | [] => 0
  | b :: bs => b + 256 * bytesToNatLE bs

/-- Value of the first four bytes of a byte string read big-endian; this is
`u32::from_be_bytes([b0, b1, b2, b3])` in `select_lottery_winner`. -/
def be32of (bytes : List Nat) : Nat :=
  bytes.getD 0 0 * 16777216 + bytes.getD 1 0 * 65536 +
    bytes.getD 2 0 * 256 + bytes.getD 3 0

/-- Target computed by `verify_pow`: `U256::one() << (256 - difficulty)` when
`difficulty < 256`, else `U256::one()`.  The `uint` crate's shift discards
bits shifted past the word array, so a shift by exactly 256 (difficulty 0)
yields 0; the `% 2 ^ 256` reduction reproduces that wrap. -/
def powTarget (difficulty : Nat) : Nat :=
  if difficulty < 256 then 2 ^ (256 - difficulty) % 2 ^ 256 else 1

/-- Target as the specification words it: 2^(256−difficulty) for
difficulty < 256 and 1 otherwise, with no wrap at difficulty 0.  Kept
separate from `powTarget` for comparison. -/
def specPowTarget (difficulty : Nat) : Nat :=
  if difficulty < 256 then 2 ^ (256 - difficulty) else 1

/-- Embedding of `Pallet::verify_pow`: hash the concatenation of the encoded
identity, encoded nonce, encoded difficulty and the raw work bytes, read the
digest little-endian and compare it with the target.  `blake` stands for
`sp_io::hashing::blake2_256`, `encodeId` for `AccountId::encode`. -/
def verify_pow {A : Type} (blake : List Nat → List Nat) (encodeId : A → List Nat)
    (who : A) (nonce difficulty : Nat) (work : List Nat) : Bool :=
  decide (bytesToNatLE (blake (encodeId who ++ encodeU32 nonce ++
    encodeU32 difficulty ++ work)) < powTarget difficulty)

/-- Full pallet storage plus the system account nonce the pallet reads:
`Score`, `LotteryEntries` (as the list in iteration order), the
`LotteryEntryCount` u32, the optional `LotteryRandomness` hash, and
`frame_system`'s per-account nonce. -/
structure PalletState (A : Type) where
  score : A → ScoreState
  lotteryEntries : List A
  lotteryEntryCount : Nat
  lotteryRandomness : Option (List Nat)
  accountNonce : A → Nat

/-- The `match score_state { Enabled(pts) => pts, _ => 0 }` read in
`submit_solution`. -/
def scorePoints : ScoreState → Nat
  | .Enabled pts => pts
  | .Disabled => 0

/-- Points added by an accepted submission: `1u64 << (difficulty - 20)`.
With the range check, `difficulty - 20` can reach 236; a Rust `u64` shift
uses only the low six bits of the shift amount, hence the `% 64`. -/
def award (difficulty : Nat) : Nat := 2 ^ ((difficulty - 20) % 64)

/-- Embedding of the `submit_solution` dispatchable.  On success returns the
updated state together with the `new_score` reported in the
`SolutionAccepted` event.  The `tx_nonce.try_into()` conversion to `u32`
fails (as `BadProof`) when the stored nonce does not fit. -/
def submit_solution {A : Type} [DecidableEq A] (blake : List Nat → List Nat)
    (encodeId : A → List Nat) (s : PalletState A) (who : A)
    (difficulty : Nat) (work : List Nat) : Except Err (PalletState A × Nat) :=
  if ¬ (20 ≤ difficulty ∧ difficulty ≤ 256) then .error .InvalidDifficulty
  else if s.score who = .Disabled then .error .ScoreDisabled
  else if 2 ^ 32 ≤ s.accountNonce who then .error .BadProof
  else if verify_pow blake encodeId who (s.accountNonce who) difficulty work = false then
    .error .BadProof
  else
    .ok ({ s with score := fun a =>
            if a = who then
              .Enabled (satAdd64 (scorePoints (s.score who)) (award difficulty))
            else s.score a },
         satAdd64 (scorePoints (s.score who)) (award difficulty))

/-- Embedding of the `withdraw` dispatchable.  On success returns the updated
state and the frozen point total reported in the `Withdrawn` event. -/
def withdraw {A : Type} [DecidableEq A] (s : PalletState A) (who : A) :
    Except Err (PalletState A × Nat) :=
  match s.score who with
  | .Disabled => .error .AlreadyWithdrawn
  | .Enabled points =>
      .ok ({ s with score := fun a => if a = who then .Disabled else s.score a },
           points)

/-- Embedding of `Pallet::add_lottery_entry`.  On success returns the updated
state and the `entry_number` (the pre-increment count) reported in the
`LotteryEntryAdded` event. -/
def add_lottery_entry {A : Type} [DecidableEq A] (s : PalletState A) (who : A) :
    Except Err (PalletState A × Nat) :=
  if who ∈ s.lotteryEntries then .error .LotteryEntryFailed
  else
    .ok ({ s with lotteryEntries := s.lotteryEntries ++ [who],
                  lotteryEntryCount := satAdd32 s.lotteryEntryCount 1 },
         s.lotteryEntryCount)

/-- Embedding of the `enter_lottery` dispatchable: the fixed difficulty is
25. -/
def enter_lottery {A : Type} [DecidableEq A] (blake : List Nat → List Nat)
    (encodeId : A → List Nat) (s : PalletState A) (who : A)
    (work : List Nat) : Except Err (PalletState A × Nat) :=
  if s.score who = .Disabled then .error .ScoreDisabled
  else if 2 ^ 32 ≤ s.accountNonce who then .error .BadProof
  else if verify_pow blake encodeId who (s.accountNonce who) 25 work = false then
    .error .BadProof
  else add_lottery_entry s who

/-- Winner index computed at the top of `select_lottery_winner`:
`u32::from_be_bytes(first four digest bytes) % entry_count` when the
randomness accumulator holds a value, `u32::default()` (0) otherwise. -/
def lotteryWinnerIndex {A : Type} (s : PalletState A) : Nat :=
  match s.lotteryRandomness with
  | some rand => be32of rand % s.lotteryEntryCount
  | none => 0

/-- The scan loop of `select_lottery_winner` after the winner has been found:
the remaining `count` iterations remove every further scanned entry. -/
def removeScanned {A : Type} : Nat → List A → List A
  | 0, es => es
  | _ + 1, [] => []
  | c + 1, _ :: rest => removeScanned c rest

/-- The scan loop of `select_lottery_winner`: `count` iterations over the
entry list; the entry at position `winnerIndex` becomes the winner and stays,
every other scanned entry is removed, entries beyond the `count` window are
never visited and stay.  Returns the winner (if scanned) and the remaining
entry list. -/
def selectScan {A : Type} : Nat → Nat → List A → Option A × List A
  | 0, _, es => (none, es)
  | _ + 1, _, [] => (none, [])
  | c + 1, 0, e :: rest => (some e, e :: removeScanned c rest)
  | c + 1, wi + 1, _ :: rest => selectScan c wi rest

/-- Embedding of `Pallet::select_lottery_winner`.  Returns the state after
all storage writes, the winner found by the scan, and the error if the body
returned one.  The `return Err(AlreadyWithdrawn)` for a disabled winner
happens before the `LotteryEntryCount::put(0)` reset, and the procedure runs
inside `on_initialize` where storage writes are not rolled back on error, so
in that branch the removals persist and the count keeps its old value. -/
def select_lottery_winner {A : Type} [DecidableEq A] (s : PalletState A) :
    PalletState A × Option A × Option Err :=
  let scanned := selectScan s.lotteryEntryCount (lotteryWinnerIndex s) s.lotteryEntries
  let s1 : PalletState A := { s with lotteryEntries := scanned.2 }
  match scanned.1 with
  | some winner =>
      match s1.score winner with
      | .Enabled pts =>
          ({ s1 with
              score := fun a =>
                if a = winner then .Enabled (satAdd64 pts (25 * 2 ^ 5))
                else s1.score a,
              lotteryEntryCount := 0 }, some winner, none)
      | .Disabled => (s1, some winner, some .AlreadyWithdrawn)
  | none => ({ s1 with lotteryEntryCount := 0 }, none, none)

/-- Embedding of the `on_initialize` hook: advance the randomness accumulator
when it holds a value (`blockEnc` is `n.encode()`), then run winner selection
when the entry count has reached 20.  Errors of the selection are swallowed
(`let _ = ...`) but its storage writes stay. -/
def on_initialize {A : Type} [DecidableEq A] (blake : List Nat → List Nat)
    (blockEnc : List Nat) (s : PalletState A) : PalletState A :=
  let s1 : PalletState A :=
    { s with lotteryRandomness :=
        s.lotteryRandomness.map (fun rand => blake (rand ++ blockEnc)) }
  if 20 ≤ s1.lotteryEntryCount then (select_lottery_winner s1).1 else s1

/-- One externally triggered state transition of the system: a signed
dispatchable (rolled back when it errors), the block hook, or the nonce bump
the runtime's `CheckNonce::prepare` performs around a dispatch. -/
inductive Op (A : Type) where
  | submit (who : A) (difficulty : Nat) (work : List Nat)
  | withdraw (who : A)
  | enterLottery (who : A) (work : List Nat)
  | blockInit (blockEnc : List Nat)
  | bumpNonce (who : A)

/-- Effect of one operation on the pallet state. -/
def applyOp {A : Type} [DecidableEq A] (blake : List Nat → List Nat)
    (encodeId : A → List Nat) (op : Op A) (s : PalletState A) : PalletState A :=
  match op with
  | .submit who d w =>
      match submit_solution blake encodeId s who d w with
      | .ok r => r.1
      | .error _ => s
  | .withdraw who =>
      match withdraw s who with
      | .ok r => r.1
      | .error _ => s
  | .enterLottery who w =>
      match enter_lottery blake encodeId s who w with
      | .ok r => r.1
      | .error _ => s
  | .blockInit enc => on_initialize blake enc s
  | .bumpNonce who =>
      { s with accountNonce := fun a =>
          if a = who then s.accountNonce a + 1 else s.accountNonce a }

/-- Effect of a sequence of operations, first operation first. -/
def applyOps {A : Type} [DecidableEq A] (blake : List Nat → List Nat)
    (encodeId : A → List Nat) (ops : List (Op A)) (s : PalletState A) :
    PalletState A :=
  ops.foldl (fun st op => applyOp blake encodeId op st) s

/-- Error projection of a dispatch result. -/
def resultErr {A : Type} : Except Err (PalletState A × Nat) → Option Err
  | .error e => some e
  | .ok _ => none

/-- Reported-number projection of a dispatch result (new score, frozen
points, or entry number, depending on the call). -/
def resultValue {A : Type} : Except Err (PalletState A × Nat) → Option Nat
  | .error _ => none
  | .ok r => some r.2

/-- Entry-count projection of a successful dispatch result. -/
def resultCount {A : Type} : Except Err (PalletState A × Nat) → Option Nat
  | .error _ => none
  | .ok r => some r.1.lotteryEntryCount

end Ctf

namespace CheckNonce

/-- Transaction validity errors produced by the nonce guard, from
`InvalidTransaction::Stale` and `InvalidTransaction::Future`. -/
inductive TxErr where
  | Stale
  | Future
deriving DecidableEq

/-- The fields of `ValidTransaction` the guard fills: zero priority and the
`requires` / `provides` dependency tags, each an encoded `(who, nonce)`
pair. -/
structure ValidTransaction (A : Type) where
  priority : Nat
  requires : List (A × Nat)
  provides : List (A × Nat)
deriving DecidableEq

/-- The system account store the guard reads and writes: one nonce per
account. -/
structure SysState (A : Type) where
  nonce : A → Nat

/-- Embedding of `CheckNonce::validate` for a signed origin `who` carrying
`supplied` (the extension's `self.0`).  Returns the validity tags, the
captured `Val::CheckNonce((who, account.nonce))`, and the account store —
unchanged, since `validate` only reads it. -/
def validate {A : Type} (sys : SysState A) (who : A) (supplied : Nat) :
    Except TxErr (ValidTransaction A × (A × Nat) × SysState A) :=
  if supplied < sys.nonce who then .error .Stale
  else
    .ok ({ priority := 0,
           requires := if sys.nonce who < supplied then [(who, supplied - 1)] else [],
           provides := [(who, supplied)] },
         (who, sys.nonce who), sys)

/-- Embedding of `CheckNonce::prepare` on a captured
`Val::CheckNonce((who, nonce))` value: reject `Future` when the supplied
nonce is ahead of the captured one, otherwise write `nonce + 1` back to the
account store. -/
def prepare {A : Type} [DecidableEq A] (sys : SysState A) (val : A × Nat)
    (supplied : Nat) : Except TxErr (SysState A) :=
  if val.2 < supplied then .error .Future
  else
    .ok { sys with nonce := fun a => if a = val.1 then val.2 + 1 else sys.nonce a }

end CheckNonce

namespace Ctf

/-- Constant stand-in for blake2-256 returning the all-zero 32-byte digest;
used to build concrete counterexamples (any digest below every nonzero
target). -/
def blake0 : List Nat → List Nat := fun _ => List.replicate 32 0

/-- Concrete identity encoding for states over `Nat` accounts: one byte. -/
def encNat : Nat → List Nat := fun n => [n % 256]

/-- Fixed concrete work bytes. -/
def work0 : List Nat := List.replicate 32 0

/-- Concrete initial state: every account `Enabled 0`, empty lottery, no
randomness, zero nonces. -/
def st0 : PalletState Nat :=
  { score := fun _ => .Enabled 0
    lotteryEntries := []
    lotteryEntryCount := 0
    lotteryRandomness := none
    accountNonce := fun _ => 0 }

/-- The wrapped and the spec-worded target agree for every positive
difficulty. -/
theorem powTarget_eq_specPowTarget {d : Nat} (h : 1 ≤ d) :
    powTarget d = specPowTarget d := by
  unfold powTarget specPowTarget
  split
  · exact Nat.mod_eq_of_lt (Nat.pow_lt_pow_right (by norm_num) (by omega))
  · rfl

/-- C1 (counterexample): at difficulty 0 the code's 256-bit shift wraps to a
target of 0 and `verify_pow` rejects every digest, while the claimed target
2^(256−0) would accept every digest, so the claimed equivalence fails. -/
theorem C1_counterexample :
    ¬ (verify_pow blake0 encNat 0 0 0 work0 = true ↔
        bytesToNatLE (blake0 (encNat 0 ++ encodeU32 0 ++ encodeU32 0 ++ work0)) <
          specPowTarget 0) := by
  decide

/-- C1 (amended): for every difficulty ≥ 1, `verify_pow` accepts exactly when
the little-endian value of the blake2-256 digest of
encoded identity ++ encoded nonce ++ encoded difficulty ++ work is strictly
below 2^(256−difficulty) (difficulty < 256) resp. 1 (difficulty ≥ 256); the
function is pure and checks no difficulty bounds.  At difficulty 0 the shift
wraps and the target is 0. -/
theorem C1_verify_pow_formula {A : Type} (blake : List Nat → List Nat)
    (encodeId : A → List Nat) (who : A) (nonce difficulty : Nat)
    (work : List Nat) (h : 1 ≤ difficulty) :
    verify_pow blake encodeId who nonce difficulty work = true ↔
      bytesToNatLE (blake (encodeId who ++ encodeU32 nonce ++
        encodeU32 difficulty ++ work)) < specPowTarget difficulty := by
  unfold verify_pow
  rw [powTarget_eq_specPowTarget h]
  simp

/-- C1 witness: the amended equivalence instantiated at difficulty 20 with
the constant zero digest. -/
theorem C1_verify_pow_formula_witness :
    verify_pow blake0 encNat 0 0 20 work0 = true ↔
      bytesToNatLE (blake0 (encNat 0 ++ encodeU32 0 ++ encodeU32 20 ++ work0)) <
        specPowTarget 20 :=
  C1_verify_pow_formula blake0 encNat 0 0 20 work0 (by norm_num)

/-- C7 (counterexample): difficulty 1 lies inside the claimed range [1,256]
but `submit_solution` rejects it with `InvalidDifficulty`. -/
theorem C7_counterexample :
    resultErr (submit_solution blake0 encNat st0 0 1 work0) =
        some Err.InvalidDifficulty ∧
      1 ≤ (1 : Nat) ∧ (1 : Nat) ≤ 256 := by
  refine ⟨by decide, by norm_num, by norm_num⟩

/-- C7 (amended): `submit_solution` fails with `InvalidDifficulty` exactly
when the supplied difficulty lies outside [20,256]; every difficulty inside
[20,256] passes the range validation (any failure is a different error). -/
theorem C7_difficulty_range {A : Type} [DecidableEq A]
    (blake : List Nat → List Nat) (encodeId : A → List Nat)
    (s : PalletState A) (who : A) (d : Nat) (w : List Nat) :
    submit_solution blake encodeId s who d w = .error .InvalidDifficulty ↔
      ¬ (20 ≤ d ∧ d ≤ 256) := by
  unfold submit_solution
  split
  · next hcond => simp [hcond]
  · next hcond =>
      rw [not_not] at hcond
      simp only [hcond, not_true_eq_false, iff_false, and_self]
      split
      · simp
      · split
        · simp
        · split
          · simp
          · simp

end Ctf

namespace Ctf

/-- Inversion of a successful `submit_solution`: the caller was enabled, the
reported total is the saturating sum of the old points and the award, and the
new state only rewrites the caller's score. -/
theorem submit_solution_ok {A : Type} [DecidableEq A]
    {blake : List Nat → List Nat} {encodeId : A → List Nat}
    {s : PalletState A} {who : A} {d : Nat} {w : List Nat}
    {s' : PalletState A} {n : Nat}
    (h : submit_solution blake encodeId s who d w = .ok (s', n)) :
    (20 ≤ d ∧ d ≤ 256) ∧ s.score who ≠ .Disabled ∧
      n = satAdd64 (scorePoints (s.score who)) (award d) ∧
      s' = { s with score := fun a => if a = who then .Enabled n else s.score a } := by
  unfold submit_solution at h
  split at h
  · exact absurd h (by simp)
  · next hrange =>
      rw [not_not] at hrange
      split at h
      · exact absurd h (by simp)
      · next hdis =>
          split at h
          · exact absurd h (by simp)
          · split at h
            · exact absurd h (by simp)
            · simp only [Except.ok.injEq, Prod.mk.injEq] at h
              obtain ⟨hs', hn⟩ := h
              refine ⟨hrange, hdis, hn.symm, ?_⟩
              rw [← hs', hn]

/-- Inversion of a successful `withdraw`: the caller was enabled with exactly
the reported points and the new state only disables the caller. -/
theorem withdraw_ok {A : Type} [DecidableEq A] {s : PalletState A} {who : A}
    {s' : PalletState A} {n : Nat} (h : withdraw s who = .ok (s', n)) :
    s.score who = .Enabled n ∧
      s' = { s with score := fun a => if a = who then .Disabled else s.score a } := by
  unfold withdraw at h
  split at h
  · exact absurd h (by simp)
  · next pts heq =>
      simp only [Except.ok.injEq, Prod.mk.injEq] at h
      obtain ⟨hs', hn⟩ := h
      exact ⟨by rw [heq, hn], hs'.symm⟩

/-- Inversion of a successful `add_lottery_entry`: the account held no live
entry, the reported number is the pre-increment count, and the new state only
appends the entry and bumps the count saturatingly. -/
theorem add_lottery_entry_ok {A : Type} [DecidableEq A] {s : PalletState A}
    {who : A} {s' : PalletState A} {n : Nat}
    (h : add_lottery_entry s who = .ok (s', n)) :
    who ∉ s.lotteryEntries ∧ n = s.lotteryEntryCount ∧
      s' = { s with lotteryEntries := s.lotteryEntries ++ [who],
                    lotteryEntryCount := satAdd32 s.lotteryEntryCount 1 } := by
  unfold add_lottery_entry at h
  split at h
  · exact absurd h (by simp)
  · next hmem =>
      simp only [Except.ok.injEq, Prod.mk.injEq] at h
      obtain ⟨hs', hn⟩ := h
      exact ⟨hmem, hn.symm, hs'.symm⟩

/-- Inversion of a successful `enter_lottery`. -/
theorem enter_lottery_ok {A : Type} [DecidableEq A]
    {blake : List Nat → List Nat} {encodeId : A → List Nat}
    {s : PalletState A} {who : A} {w : List Nat}
    {s' : PalletState A} {n : Nat}
    (h : enter_lottery blake encodeId s who w = .ok (s', n)) :
    s.score who ≠ .Disabled ∧ who ∉ s.lotteryEntries ∧
      n = s.lotteryEntryCount ∧
      s' = { s with lotteryEntries := s.lotteryEntries ++ [who],
                    lotteryEntryCount := satAdd32 s.lotteryEntryCount 1 } := by
  unfold enter_lottery at h
  split at h
  · exact absurd h (by simp)
  · next hdis =>
      split at h
      · exact absurd h (by simp)
      · split at h
        · exact absurd h (by simp)
        · obtain ⟨hmem, hn, hs'⟩ := add_lottery_entry_ok h
          exact ⟨hdis, hmem, hn, hs'⟩

end Ctf

namespace CheckNonce

/-- C4: for a signed origin with stored nonce n, `validate` fails `Stale`
exactly when the supplied nonce is below n and otherwise leaves the account
store untouched while capturing n; `prepare` on the captured value fails
`Future` exactly when the supplied nonce is above n and otherwise writes
exactly n + 1. -/
theorem C4_check_nonce {A : Type} [DecidableEq A] (sys : SysState A)
    (who : A) (supplied : Nat) :
    (validate sys who supplied = .error .Stale ↔ supplied < sys.nonce who) ∧
    (∀ v cap sys', validate sys who supplied = .ok (v, cap, sys') →
        sys' = sys ∧ cap = (who, sys.nonce who)) ∧
    (∀ captured, (prepare sys (who, captured) supplied = .error .Future ↔
        supplied > captured)) ∧
    (∀ captured, ¬ supplied > captured →
        prepare sys (who, captured) supplied =
          .ok { sys with nonce := fun a => if a = who then captured + 1 else sys.nonce a }) := by
  refine ⟨?_, ?_, ?_, ?_⟩
  · unfold validate
    split
    · next hlt => simp [hlt]
    · next hge => simp [hge]
  · intro v cap sys' h
    unfold validate at h
    split at h
    · exact absurd h (by simp)
    · simp only [Except.ok.injEq, Prod.mk.injEq] at h
      exact ⟨h.2.2.symm, h.2.1.symm⟩
  · intro captured
    unfold prepare
    split
    · next hlt => simp [hlt]
    · next hge => simp [hge]
  · intro captured hge
    unfold prepare
    split
    · next hlt => exact absurd hlt hge
    · rfl

/-- Concrete account store for the C4 witness: every nonce is 5. -/
def sys5 : SysState Nat := { nonce := fun _ => 5 }

/-- C4 witness: `prepare` at supplied = captured = 5 advances the stored
nonce to 6. -/
theorem C4_check_nonce_witness :
    prepare sys5 (0, 5) 5 =
      .ok { sys5 with nonce := fun a => if a = 0 then 5 + 1 else sys5.nonce a } :=
  (C4_check_nonce sys5 0 5).2.2.2 5 (by norm_num)

end CheckNonce

namespace Ctf

/-- Winner returned by the scan loop: the entry at the winner index, when the
index falls inside the scan window, and nothing otherwise. -/
theorem selectScan_fst {A : Type} (c : Nat) :
    ∀ (wi : Nat) (es : List A),
      (selectScan c wi es).1 = if wi < c then es.get? wi else none := by
  induction c with
  | zero => intro wi es; simp [selectScan]
  | succ c ih =>
      intro wi es
      cases es with
      | nil => cases wi <;> simp [selectScan]
      | cons e rest =>
          cases wi with
          | zero => simp [selectScan]
          | succ wi =>
              rw [show selectScan (c + 1) (wi + 1) (e :: rest) =
                    selectScan c wi rest from rfl]
              rw [ih wi rest]
              by_cases hlt : wi < c
              · simp [hlt, Nat.succ_lt_succ_iff]
              · simp [hlt, Nat.succ_lt_succ_iff]

/-- Winner selection never touches the randomness accumulator. -/
theorem select_randomness {A : Type} [DecidableEq A] (s : PalletState A) :
    (select_lottery_winner s).1.lotteryRandomness = s.lotteryRandomness := by
  cases hscan : (selectScan s.lotteryEntryCount (lotteryWinnerIndex s)
      s.lotteryEntries).1 with
  | none => simp [select_lottery_winner, hscan]
  | some winner =>
      cases hsw : s.score winner with
      | Enabled pts => simp [select_lottery_winner, hscan, hsw]
      | Disabled => simp [select_lottery_winner, hscan, hsw]

/-- Winner selection keeps every disabled account disabled. -/
theorem select_score_disabled {A : Type} [DecidableEq A] (s : PalletState A)
    (a : A) (h : s.score a = .Disabled) :
    (select_lottery_winner s).1.score a = .Disabled := by
  cases hscan : (selectScan s.lotteryEntryCount (lotteryWinnerIndex s)
      s.lotteryEntries).1 with
  | none => simp [select_lottery_winner, hscan, h]
  | some winner =>
      cases hsw : s.score winner with
      | Enabled pts =>
          by_cases hwa : a = winner
          · rw [hwa, hsw] at h; exact absurd h (by simp)
          · simp [select_lottery_winner, hscan, hsw, hwa, h]
      | Disabled => simp [select_lottery_winner, hscan, hsw, h]

/-- The block hook maps the randomness accumulator through the hash exactly
when it holds a value. -/
theorem on_initialize_randomness {A : Type} [DecidableEq A]
    (blake : List Nat → List Nat) (enc : List Nat) (s : PalletState A) :
    ( on_initialize blake enc s).lotteryRandomness =
      s.lotteryRandomness.map (fun rand => blake (rand ++ enc)) := by
  by_cases hcount : 20 ≤ s.lotteryEntryCount
  · simp [ on_initialize, hcount, select_randomness]
  · simp [ on_initialize, hcount]

/-- The block hook keeps every disabled account disabled. -/
theorem on_initialize_score_disabled {A : Type} [DecidableEq A]
    (blake : List Nat → List Nat) (enc : List Nat) (s : PalletState A)
    (a : A) (h : s.score a = .Disabled) :
    ( on_initialize blake enc s).score a = .Disabled := by
  by_cases hcount : 20 ≤ s.lotteryEntryCount
  · simp only [ on_initialize, hcount, if_true]
    exact select_score_disabled _ a h
  · simpa [ on_initialize, hcount] using h

/-- Unfolding step for operation sequences. -/
theorem applyOps_cons {A : Type} [DecidableEq A] (blake : List Nat → List Nat)
    (encodeId : A → List Nat) (op : Op A) (ops : List (Op A))
    (s : PalletState A) :
    applyOps blake encodeId (op :: ops) s =
      applyOps blake encodeId ops (applyOp blake encodeId op s) := rfl

/-- No single operation seeds an unset randomness accumulator. -/
theorem applyOp_randomness_none {A : Type} [DecidableEq A]
    (blake : List Nat → List Nat) (encodeId : A → List Nat) (op : Op A)
    (s : PalletState A) (h : s.lotteryRandomness = none) :
    (applyOp blake encodeId op s).lotteryRandomness = none := by
  cases op with
  | submit who d w =>
      dsimp only [applyOp]
      cases hc : submit_solution blake encodeId s who d w with
      | ok r =>
          obtain ⟨s', n⟩ := r
          obtain ⟨-, -, -, hs'⟩ := submit_solution_ok hc
          simp [hs', h]
      | error e => simpa using h
  | withdraw who =>
      dsimp only [applyOp]
      cases hc : withdraw s who with
      | ok r =>
          obtain ⟨s', n⟩ := r
          obtain ⟨-, hs'⟩ := withdraw_ok hc
          simp [hs', h]
      | error e => simpa using h
  | enterLottery who w =>
      dsimp only [applyOp]
      cases hc : enter_lottery blake encodeId s who w with
      | ok r =>
          obtain ⟨s', n⟩ := r
          obtain ⟨-, -, -, hs'⟩ := enter_lottery_ok hc
          simp [hs', h]
      | error e => simpa using h
  | blockInit enc =>
      dsimp only [applyOp]
      rw [on_initialize_randomness, h]
      rfl
  | bumpNonce who => simpa [applyOp] using h

/-- No operation sequence seeds an unset randomness accumulator. -/
theorem applyOps_randomness_none {A : Type} [DecidableEq A]
    (blake : List Nat → List Nat) (encodeId : A → List Nat) :
    ∀ (ops : List (Op A)) (s : PalletState A), s.lotteryRandomness = none →
      (applyOps blake encodeId ops s).lotteryRandomness = none := by
  intro ops
  induction ops with
  | nil => intro s h; simpa [applyOps] using h
  | cons op rest ih =>
      intro s h
      rw [applyOps_cons]
      exact ih _ (applyOp_randomness_none _ _ _ _ h)

/-- C8: per tick the accumulator is replaced by the hash of its old value
concatenated with the encoded block number when set, stays unset when unset,
and since no operation seeds it, an initially unset accumulator is unset in
every reachable state. -/
theorem C8_randomness {A : Type} [DecidableEq A]
    (blake : List Nat → List Nat) (encodeId : A → List Nat) :
    (∀ (s : PalletState A) (enc r : List Nat), s.lotteryRandomness = some r →
        ( on_initialize blake enc s).lotteryRandomness = some (blake (r ++ enc))) ∧
    (∀ (s : PalletState A) (enc : List Nat), s.lotteryRandomness = none →
        ( on_initialize blake enc s).lotteryRandomness = none) ∧
    (∀ (ops : List (Op A)) (s : PalletState A), s.lotteryRandomness = none →
        (applyOps blake encodeId ops s).lotteryRandomness = none) := by
  refine ⟨?_, ?_, applyOps_randomness_none blake encodeId⟩
  · intro s enc r h
    rw [on_initialize_randomness, h]
    rfl
  · intro s enc h
    rw [on_initialize_randomness, h]
    rfl

/-- C8 witness: one tick then one submission on the initial (unseeded) state
leaves the accumulator unset. -/
theorem C8_randomness_witness :
    (applyOps blake0 encNat [Op.blockInit [1], Op.submit 0 20 work0] st0).lotteryRandomness
      = none :=
  (C8_randomness blake0 encNat).2.2 [Op.blockInit [1], Op.submit 0 20 work0] st0 rfl

end Ctf

namespace Ctf

/-- Concrete lottery state: 20 entries (accounts 0..19), count 20, a seeded
all-zero accumulator, and account 0 (the coming winner) already withdrawn. -/
def stL : PalletState Nat :=
  { score := fun a => if a = 0 then .Disabled else .Enabled 0
    lotteryEntries := List.range 20
    lotteryEntryCount := 20
    lotteryRandomness := some work0
    accountNonce := fun _ => 0 }

/-- C5 (counterexample): on `stL` the selected winner (account 0) has
withdrawn, the procedure fails `AlreadyWithdrawn`, and the entry count is
left at 20 instead of being reset to zero. -/
theorem C5_counterexample :
    (select_lottery_winner stL).2.2 = some Err.AlreadyWithdrawn ∧
      (select_lottery_winner stL).1.lotteryEntryCount = 20 ∧ (20 : Nat) ≠ 0 := by
  refine ⟨by decide, by decide, by decide⟩

/-- C5 (amended): winner selection resets the entry count to zero in every
invocation except when the selected winner's score state is `Disabled`: in
that case the body returns `AlreadyWithdrawn` before the reset, the count
keeps its pre-call value, and no points are awarded (the bonus is lost, not
retried or redirected). -/
theorem C5_entry_count_reset {A : Type} [DecidableEq A] (s : PalletState A) :
    ((select_lottery_winner s).2.2 = none →
        (select_lottery_winner s).1.lotteryEntryCount = 0) ∧
    (∀ e, (select_lottery_winner s).2.2 = some e →
        e = .AlreadyWithdrawn ∧
        (select_lottery_winner s).1.lotteryEntryCount = s.lotteryEntryCount ∧
        (select_lottery_winner s).1.score = s.score) := by
  cases hscan : (selectScan s.lotteryEntryCount (lotteryWinnerIndex s)
      s.lotteryEntries).1 with
  | none =>
      constructor
      · intro _; simp [select_lottery_winner, hscan]
      · intro e he; simp [select_lottery_winner, hscan] at he
  | some winner =>
      cases hsw : s.score winner with
      | Enabled pts =>
          constructor
          · intro _; simp [select_lottery_winner, hscan, hsw]
          · intro e he; simp [select_lottery_winner, hscan, hsw] at he
      | Disabled =>
          constructor
          · intro hnone; simp [select_lottery_winner, hscan, hsw] at hnone
          · intro e he
            simp only [select_lottery_winner, hscan, hsw] at he
            refine ⟨(Option.some.inj he).symm, ?_, ?_⟩ <;>
              simp [select_lottery_winner, hscan, hsw]

/-- C5 witness: on the all-enabled two-entry state below the reset fires. -/
def stW : PalletState Nat :=
  { score := fun _ => .Enabled 0
    lotteryEntries := [7, 8]
    lotteryEntryCount := 2
    lotteryRandomness := some ([0, 0, 0, 1] ++ List.replicate 28 0)
    accountNonce := fun _ => 0 }

/-- C5 witness: selection on `stW` succeeds and resets the count to zero. -/
theorem C5_entry_count_reset_witness :
    (select_lottery_winner stW).1.lotteryEntryCount = 0 :=
  (C5_entry_count_reset stW).1 (by decide)

/-- C6: whenever winner selection runs with a positive entry count (every
in-system invocation has count ≥ 20), the winner it scans out is the entry at
the winner index, where the index is the first four accumulator bytes read
big-endian modulo the entry count when the accumulator is set, and 0 when it
is unset. -/
theorem C6_winner_index {A : Type} [DecidableEq A] (s : PalletState A)
    (h : 0 < s.lotteryEntryCount) :
    (select_lottery_winner s).2.1 = s.lotteryEntries.get? (lotteryWinnerIndex s) ∧
    (∀ r, s.lotteryRandomness = some r →
        lotteryWinnerIndex s = be32of r % s.lotteryEntryCount) ∧
    (s.lotteryRandomness = none → lotteryWinnerIndex s = 0) := by
  refine ⟨?_, ?_, ?_⟩
  · have hwi : lotteryWinnerIndex s < s.lotteryEntryCount := by
      unfold lotteryWinnerIndex
      cases s.lotteryRandomness with
      | some r => exact Nat.mod_lt _ h
      | none => exact h
    have hsel : (select_lottery_winner s).2.1 =
        (selectScan s.lotteryEntryCount (lotteryWinnerIndex s) s.lotteryEntries).1 := by
      cases hscan : (selectScan s.lotteryEntryCount (lotteryWinnerIndex s)
          s.lotteryEntries).1 with
      | none => simp [select_lottery_winner, hscan]
      | some winner =>
          cases hsw : s.score winner with
          | Enabled pts => simp [select_lottery_winner, hscan, hsw]
          | Disabled => simp [select_lottery_winner, hscan, hsw]
    rw [hsel, selectScan_fst, if_pos hwi]
  · intro r hr
    unfold lotteryWinnerIndex
    rw [hr]
  · intro hr
    unfold lotteryWinnerIndex
    rw [hr]

/-- C6 witness: on `stW` the accumulator reads 1 big-endian, the index is
1 mod 2 = 1, and the winner scanned out is entry 8 at position 1. -/
theorem C6_winner_index_witness :
    (select_lottery_winner stW).2.1 = stW.lotteryEntries.get? (lotteryWinnerIndex stW) ∧
    (∀ r, stW.lotteryRandomness = some r →
        lotteryWinnerIndex stW = be32of r % stW.lotteryEntryCount) ∧
    (stW.lotteryRandomness = none → lotteryWinnerIndex stW = 0) :=
  C6_winner_index stW (by decide)

end Ctf

namespace Ctf

/-- C2 (counterexample): with the constant-zero digest both difficulty 83 and
difficulty 84 are accepted from the fresh state, but difficulty 83 awards
2^63 points while difficulty 84 awards only 1, because the u64 shift amount
64 is reduced mod 64; the award is not strictly increasing over the accepted
range [20,256]. -/
theorem C2_counterexample :
    resultValue (submit_solution blake0 encNat st0 0 83 work0) = some (2 ^ 63) ∧
    resultValue (submit_solution blake0 encNat st0 0 84 work0) = some 1 ∧
    ¬ (2 ^ 63 : Nat) < 1 := by
  refine ⟨by decide, by decide, by norm_num⟩

/-- C2 (amended): the award is strictly increasing in the difficulty only on
[20,83] (beyond that the u64 shift wraps mod 64 and the award is periodic);
on every accepted call the reported new total is the saturating sum of the
previous points and the award and is stored as `Enabled(newPoints)`. -/
theorem C2_award_monotone_and_saturating {A : Type} [DecidableEq A]
    (blake : List Nat → List Nat) (encodeId : A → List Nat) :
    (∀ d1 d2, 20 ≤ d1 → d1 < d2 → d2 ≤ 83 → award d1 < award d2) ∧
    (∀ (s : PalletState A) (who : A) (d : Nat) (w : List Nat)
        (s' : PalletState A) (n : Nat),
        submit_solution blake encodeId s who d w = .ok (s', n) →
        n = satAdd64 (scorePoints (s.score who)) (award d) ∧
        s'.score who = .Enabled n) := by
  constructor
  · intro d1 d2 h1 h12 h2
    unfold award
    rw [Nat.mod_eq_of_lt (by omega : d1 - 20 < 64),
        Nat.mod_eq_of_lt (by omega : d2 - 20 < 64)]
    exact Nat.pow_lt_pow_right (by norm_num) (by omega)
  · intro s who d w s' n h
    obtain ⟨-, -, hn, hs'⟩ := submit_solution_ok h
    subst hs'
    exact ⟨hn, by simp⟩

/-- C2 witness: the monotone part at difficulties 20 and 21. -/
theorem C2_award_monotone_and_saturating_witness :
    award 20 < award 21 :=
  (C2_award_monotone_and_saturating (A := Nat) blake0 encNat).1 20 21
    (by norm_num) (by norm_num) (by norm_num)

/-- Concrete lottery state with the count already at the u32 maximum. -/
def stMax : PalletState Nat :=
  { score := fun _ => .Enabled 0
    lotteryEntries := []
    lotteryEntryCount := U32_MAX
    lotteryRandomness := none
    accountNonce := fun _ => 0 }

/-- C9 (counterexample): at entry count 2^32 − 1 an accepted entry leaves the
count unchanged (`saturating_add`), so the count does not increment by
exactly one and a later entry would repeat the same entry number. -/
theorem C9_counterexample :
    resultValue (enter_lottery blake0 encNat stMax 5 work0) = some U32_MAX ∧
    resultCount (enter_lottery blake0 encNat stMax 5 work0) = some U32_MAX ∧
    stMax.lotteryEntryCount = U32_MAX ∧ U32_MAX ≠ U32_MAX + 1 := by
  refine ⟨by decide, by decide, by decide, by decide⟩

/-- C9 (amended): a duplicate live entry fails `LotteryEntryFailed` (once the
earlier disabled-account and proof checks pass); an accepted entry is
appended to the entry set, the reported entry number is the pre-increment
count, and the count is incremented saturatingly — by exactly one whenever it
is below 2^32 − 1, where it stays. -/
theorem C9_enter_lottery {A : Type} [DecidableEq A]
    (blake : List Nat → List Nat) (encodeId : A → List Nat)
    (s : PalletState A) (who : A) (w : List Nat) :
    (s.score who ≠ .Disabled → s.accountNonce who < 2 ^ 32 →
        verify_pow blake encodeId who (s.accountNonce who) 25 w = true →
        who ∈ s.lotteryEntries →
        enter_lottery blake encodeId s who w = .error .LotteryEntryFailed) ∧
    (∀ s' n, enter_lottery blake encodeId s who w = .ok (s', n) →
        who ∉ s.lotteryEntries ∧ n = s.lotteryEntryCount ∧
        s'.lotteryEntries = s.lotteryEntries ++ [who] ∧
        s'.lotteryEntryCount = satAdd32 s.lotteryEntryCount 1) ∧
    (s.lotteryEntryCount < U32_MAX →
        satAdd32 s.lotteryEntryCount 1 = s.lotteryEntryCount + 1) := by
  refine ⟨?_, ?_, ?_⟩
  · intro hdis hnonce hpow hmem
    unfold enter_lottery
    rw [if_neg hdis, if_neg (by omega), if_neg (by simp [hpow])]
    unfold add_lottery_entry
    rw [if_pos hmem]
  · intro s' n h
    obtain ⟨-, hmem, hn, hs'⟩ := enter_lottery_ok h
    subst hs'
    exact ⟨hmem, hn, rfl, rfl⟩
  · intro hlt
    unfold satAdd32
    exact Nat.min_eq_left hlt

/-- C9 witness: account 7 already holds an entry in `stW`, so a second entry
attempt fails `LotteryEntryFailed`. -/
theorem C9_enter_lottery_witness :
    enter_lottery blake0 encNat stW 7 work0 = .error .LotteryEntryFailed :=
  (C9_enter_lottery blake0 encNat stW 7 work0).1 (by decide) (by decide)
    (by decide) (by decide)

/-- C10: a `submit_solution` call by one account — successful or rolled
back — never changes any other account's score, the lottery entry set, the
entry count, or the randomness accumulator. -/
theorem C10_submit_frame {A : Type} [DecidableEq A]
    (blake : List Nat → List Nat) (encodeId : A → List Nat)
    (s : PalletState A) (who : A) (d : Nat) (w : List Nat) :
    (∀ a, a ≠ who →
        (applyOp blake encodeId (Op.submit who d w) s).score a = s.score a) ∧
    (applyOp blake encodeId (Op.submit who d w) s).lotteryEntries =
        s.lotteryEntries ∧
    (applyOp blake encodeId (Op.submit who d w) s).lotteryEntryCount =
        s.lotteryEntryCount ∧
    (applyOp blake encodeId (Op.submit who d w) s).lotteryRandomness =
        s.lotteryRandomness := by
  dsimp only [applyOp]
  cases hc : submit_solution blake encodeId s who d w with
  | ok r =>
      obtain ⟨s', n⟩ := r
      obtain ⟨-, -, -, hs'⟩ := submit_solution_ok hc
      subst hs'
      refine ⟨?_, rfl, rfl, rfl⟩
      intro a ha
      simp [ha]
  | error e => exact ⟨fun a _ => rfl, rfl, rfl, rfl⟩

/-- C10 witness: a successful difficulty-20 submission by account 0 leaves
account 1's score untouched. -/
theorem C10_submit_frame_witness :
    (applyOp blake0 encNat (Op.submit 0 20 work0) st0).score 1 = st0.score 1 :=
  (C10_submit_frame blake0 encNat st0 0 20 work0).1 1 (by decide)

end Ctf

namespace Ctf

/-- No single operation re-enables a disabled account. -/
theorem applyOp_score_disabled {A : Type} [DecidableEq A]
    (blake : List Nat → List Nat) (encodeId : A → List Nat) (op : Op A)
    (s : PalletState A) (a : A) (h : s.score a = .Disabled) :
    (applyOp blake encodeId op s).score a = .Disabled := by
  cases op with
  | submit who d w =>
      dsimp only [applyOp]
      cases hc : submit_solution blake encodeId s who d w with
      | ok r =>
          obtain ⟨s', n⟩ := r
          obtain ⟨-, hdis, -, hs'⟩ := submit_solution_ok hc
          subst hs'
          by_cases ha : a = who
          · subst ha; exact absurd h hdis
          · simpa [ha] using h
      | error e => exact h
  | withdraw who =>
      dsimp only [applyOp]
      cases hc : withdraw s who with
      | ok r =>
          obtain ⟨s', n⟩ := r
          obtain ⟨-, hs'⟩ := withdraw_ok hc
          subst hs'
          by_cases ha : a = who
          · simp [ha]
          · simpa [ha] using h
      | error e => exact h
  | enterLottery who w =>
      dsimp only [applyOp]
      cases hc : enter_lottery blake encodeId s who w with
      | ok r =>
          obtain ⟨s', n⟩ := r
          obtain ⟨-, -, -, hs'⟩ := enter_lottery_ok hc
          subst hs'
          exact h
      | error e => exact h
  | blockInit enc => exact on_initialize_score_disabled blake enc s a h
  | bumpNonce who => exact h

/-- No operation sequence re-enables a disabled account. -/
theorem applyOps_score_disabled {A : Type} [DecidableEq A]
    (blake : List Nat → List Nat) (encodeId : A → List Nat) :
    ∀ (ops : List (Op A)) (s : PalletState A) (a : A), s.score a = .Disabled →
      (applyOps blake encodeId ops s).score a = .Disabled := by
  intro ops
  induction ops with
  | nil => intro s a h; simpa [applyOps] using h
  | cons op rest ih =>
      intro s a h
      rw [applyOps_cons]
      exact ih _ a (applyOp_score_disabled _ _ _ _ a h)

/-- Concrete state in which account 0 has already withdrawn. -/
def stD : PalletState Nat :=
  { score := fun a => if a = 0 then .Disabled else .Enabled 0
    lotteryEntries := []
    lotteryEntryCount := 0
    lotteryRandomness := none
    accountNonce := fun _ => 0 }

/-- C3 (counterexample): on a disabled account, a submission with the
out-of-range difficulty 10 fails with `InvalidDifficulty`, not
`ScoreDisabled` — the difficulty check runs first, so the claim that
`submit_solution` always fails `ScoreDisabled` after a withdrawal is false
as stated. -/
theorem C3_counterexample :
    stD.score 0 = ScoreState.Disabled ∧
    resultErr (submit_solution blake0 encNat stD 0 10 work0) =
        some Err.InvalidDifficulty ∧
    Err.InvalidDifficulty ≠ Err.ScoreDisabled := by
  refine ⟨by decide, by decide, by decide⟩

/-- C3 (amended): `withdraw` on `Enabled(p)` disables the account and reports
the frozen total p; `Disabled` is terminal: `withdraw` afterwards always
fails `AlreadyWithdrawn`, `enter_lottery` always fails `ScoreDisabled`,
`submit_solution` fails `ScoreDisabled` for every in-range difficulty (an
out-of-range difficulty fails `InvalidDifficulty` first), a lottery win on
the account fails `AlreadyWithdrawn` without touching any score, and no
operation sequence ever takes the account out of `Disabled`. -/
theorem C3_disabled_terminal {A : Type} [DecidableEq A]
    (blake : List Nat → List Nat) (encodeId : A → List Nat) :
    (∀ (s : PalletState A) (who : A) (p : Nat), s.score who = .Enabled p →
        withdraw s who =
          .ok ({ s with score := fun a => if a = who then .Disabled else s.score a },
               p)) ∧
    (∀ (s : PalletState A) (who : A), s.score who = .Disabled →
        withdraw s who = .error .AlreadyWithdrawn) ∧
    (∀ (s : PalletState A) (who : A) (d : Nat) (w : List Nat),
        s.score who = .Disabled → 20 ≤ d → d ≤ 256 →
        submit_solution blake encodeId s who d w = .error .ScoreDisabled) ∧
    (∀ (s : PalletState A) (who : A) (w : List Nat), s.score who = .Disabled →
        enter_lottery blake encodeId s who w = .error .ScoreDisabled) ∧
    (∀ (s : PalletState A) (w : A), (select_lottery_winner s).2.1 = some w →
        s.score w = .Disabled →
        (select_lottery_winner s).2.2 = some .AlreadyWithdrawn ∧
        (select_lottery_winner s).1.score = s.score) ∧
    (∀ (ops : List (Op A)) (s : PalletState A) (a : A), s.score a = .Disabled →
        (applyOps blake encodeId ops s).score a = .Disabled) := by
  refine ⟨?_, ?_, ?_, ?_, ?_, applyOps_score_disabled blake encodeId⟩
  · intro s who p h
    simp [withdraw, h]
  · intro s who h
    simp [withdraw, h]
  · intro s who d w h hd1 hd2
    unfold submit_solution
    rw [if_neg (not_not_intro ⟨hd1, hd2⟩), if_pos h]
  · intro s who w h
    simp [enter_lottery, h]
  · intro s w hw hdis
    cases hscan : (selectScan s.lotteryEntryCount (lotteryWinnerIndex s)
        s.lotteryEntries).1 with
    | none => simp [select_lottery_winner, hscan] at hw
    | some winner =>
        cases hsw : s.score winner with
        | Enabled pts =>
            simp only [select_lottery_winner, hscan, hsw] at hw
            rw [Option.some.injEq] at hw
            subst hw
            rw [hdis] at hsw
            exact absurd hsw (by simp)
        | Disabled =>
            constructor
            · simp [select_lottery_winner, hscan, hsw]
            · simp [select_lottery_winner, hscan, hsw]

/-- C3 witness: a second withdraw on the already-disabled account 0 fails
`AlreadyWithdrawn`. -/
theorem C3_disabled_terminal_witness :
    withdraw stD 0 = .error .AlreadyWithdrawn :=
  (C3_disabled_terminal blake0 encNat).2.1 stD 0 (by decide)

end Ctf
